import Mathlib

/-!
Verification development for the Intercept compiler repository.

The first part embeds the legacy C optimiser (src/codegen/opt/opt.c): the
IR instruction record, the def-use bookkeeping primitives, and the passes
opt_instcombine, opt_dce, opt_mem2reg, opt_tail_call_elim and
opt_reorder_blocks.  The second part embeds the per-instruction emission
loop of Module::mir (lib/lcc/ir/module.cc) and the exit-code logic of the
driver (src/lcc.cc).  Instructions and blocks are named by numeric ids; an
association list carries the per-id payload, mirroring the intrusive
pointer graph of the C code.  Machine integers are naturals reduced mod
2 ^ 64 where the C computes on u64.
-/

namespace Intercept

/-- The IR instruction kinds of the legacy C IR that appear in opt.c.
The C enum has a few further kinds (intrinsics, registers); every kind
not matched by a specific case in a pass falls into the default case
there, exactly as in the C switch statements. -/
inductive IRKind where
  | IMMEDIATE
  | LIT_INTEGER
  | LIT_STRING
  | ALLOCA
  | PARAMETER
  | STATIC_REF
  | FUNC_REF
  | LOAD
  | STORE
  | NOT
  | ZERO_EXTEND
  | SIGN_EXTEND
  | TRUNCATE
  | BITCAST
  | COPY
  | ADD
  | SUB
  | MUL
  | DIV
  | MOD
  | SHL
  | SHR
  | SAR
  | AND
  | OR
  | EQ
  | NE
  | LT
  | LE
  | GT
  | GE
  | CALL
  | PHI
  | BRANCH
  | BRANCH_CONDITIONAL
  | RETURN
  | UNREACHABLE
  deriving DecidableEq, Repr

/-- One IR instruction.  The C IRInstruction keeps its operand fields in a
union; here every field is present and a field is meaningful only for the
kinds that use it, which is what the union achieves in C.  Operand fields
hold instruction ids; the id 0 plays the role of the C null pointer (a
return with operand 0 is a void return).  The users field is the intrusive
use list. -/
structure IRInstr where
  kind : IRKind
  imm : Nat := 0
  lhs : Nat := 0
  rhs : Nat := 0
  operand : Nat := 0
  storeAddr : Nat := 0
  storeValue : Nat := 0
  destBlock : Nat := 0
  condId : Nat := 0
  thenBlock : Nat := 0
  elseBlock : Nat := 0
  phiArgs : List (Nat × Nat) := []
  isIndirect : Bool := false
  calleeInstr : Nat := 0
  calleeFunction : Nat := 0
  tailCall : Bool := false
  funcRef : Nat := 0
  parentBlock : Nat := 0
  users : List Nat := []
  deriving DecidableEq, Repr

instance : Inhabited IRInstr := ⟨{ kind := .UNREACHABLE }⟩

/-- The state of one IR function.  blocks is the linear block order
(the doubly linked list f->blocks in C); blockInsts maps a block id to
its ordered instruction list (the per-block instruction list, which block
reordering never touches); env maps instruction ids to their payload;
funcPure records the attr_pure flag of the functions of the module;
unreachableMarks records blocks flagged by ir_mark_unreachable. -/
structure IRFunctionState where
  blocks : List Nat
  blockInsts : List (Nat × List Nat)
  env : List (Nat × IRInstr)
  funcPure : List (Nat × Bool) := []
  unreachableMarks : List Nat := []
  deriving DecidableEq, Repr

def blockInstsOf (s : IRFunctionState) (b : Nat) : List Nat :=
  (s.blockInsts.lookup b).getD []

def getInst (s : IRFunctionState) (i : Nat) : IRInstr :=
  (s.env.lookup i).getD default

def mapInst (s : IRFunctionState) (i : Nat) (f : IRInstr → IRInstr) : IRFunctionState :=
  { s with env := s.env.map (fun p => (p.1, if p.1 = i then f p.2 else p.2)) }

def attrPureOf (s : IRFunctionState) (f : Nat) : Bool :=
  (s.funcPure.lookup f).getD false

/-- The value operands of an instruction, by kind.  Blocks are not values
in this IR, so branch targets and phi predecessor blocks are not operand
edges; the condition of a conditional branch and the incoming values of a
phi are. -/
def operandsOf (ins : IRInstr) : List Nat :=
  match ins.kind with
  | .ADD | .SUB | .MUL | .DIV | .MOD | .SHL | .SHR | .SAR
  | .AND | .OR | .EQ | .NE | .LT | .LE | .GT | .GE => [ins.lhs, ins.rhs]
  | .NOT | .ZERO_EXTEND | .SIGN_EXTEND | .TRUNCATE | .BITCAST | .COPY | .LOAD => [ins.operand]
  | .STORE => [ins.storeAddr, ins.storeValue]
  | .RETURN => if ins.operand = 0 then [] else [ins.operand]
  | .CALL => if ins.isIndirect then [ins.calleeInstr] else []
  | .PHI => ins.phiArgs.map (fun a => a.2)
  | .BRANCH_CONDITIONAL => [ins.condId]
  | _ => []

/-- Modelled from the spec: ir_remove_use lives in the IR support code
that is not part of src/.  Per the data model, users is a set of
back-references; removing a use deletes the user from the use set of the
used value. -/
def ir_remove_use (s : IRFunctionState) (usee user : Nat) : IRFunctionState :=
  mapInst s usee (fun c => { c with users := c.users.filter (fun u => u ≠ user) })

/-- Substitute v by w in a single operand slot. -/
def substOp (x v w : Nat) : Nat := if x = v then w else x

/-- Rewrite every operand slot of an instruction from v to w.  Fields not
used by the kind of the instruction are junk storage in C (union members),
so rewriting them too is unobservable. -/
def replaceOperandIn (ins : IRInstr) (v w : Nat) : IRInstr :=
  { ins with
    lhs := substOp ins.lhs v w
    rhs := substOp ins.rhs v w
    operand := substOp ins.operand v w
    storeAddr := substOp ins.storeAddr v w
    storeValue := substOp ins.storeValue v w
    condId := substOp ins.condId v w
    calleeInstr := substOp ins.calleeInstr v w
    phiArgs := ins.phiArgs.map (fun a => (a.1, substOp a.2 v w)) }

/-- Add users to a use set without duplicating entries already present. -/
def addUsers (l extra : List Nat) : List Nat :=
  l ++ extra.filter (fun u => ¬ l.contains u)

/-- Modelled from the spec: ir_replace_uses is in the IR support code that
is not part of src/.  Replacing the uses of v with w rewrites the operand
slots of every user of v, adds each former user of v to the use set of w,
and clears the use set of v. -/
def ir_replace_uses (s : IRFunctionState) (v w : Nat) : IRFunctionState :=
  let us := (getInst s v).users
  let s1 := us.foldl (fun s u => mapInst s u (fun c => replaceOperandIn c v w)) s
  let s2 := mapInst s1 w (fun c => { c with users := addUsers c.users us })
  mapInst s2 v (fun c => { c with users := [] })

/-- Modelled from the spec: ir_remove is in the IR support code that is
not part of src/.  Removal unlinks the instruction from its block and
severs every operand edge, deleting the instruction from the use set of
each of its operands.  The callers are expected to have emptied its own
use set first. -/
def ir_remove (s : IRFunctionState) (i : Nat) : IRFunctionState :=
  let s1 := (operandsOf (getInst s i)).foldl (fun s o => ir_remove_use s o i) s
  { s1 with blockInsts := s1.blockInsts.map (fun p => (p.1, p.2.filter (fun j => j ≠ i))) }

/-- Modelled from the spec: ir_mark_unreachable is in the IR support code
that is not part of src/.  Per section 4.5 of the spec it marks the block
containing an admitted tail call as unreachable from the normal flow. -/
def ir_mark_unreachable (s : IRFunctionState) (b : Nat) : IRFunctionState :=
  { s with unreachableMarks := s.unreachableMarks ++ [b] }

/-! ### u64 arithmetic

The C folds compute on u64.  Division and remainder by zero and shifts by
64 or more are undefined behaviour in C; the Lean operations are total
(Nat division by zero yields zero) and stand in for those cases, none of
which any theorem below depends on for its value. -/

def U64 : Nat := 18446744073709551616

def u64add (a b : Nat) : Nat := (a + b) % U64

def u64sub (a b : Nat) : Nat := (a % U64 + (U64 - b % U64)) % U64

def u64mul (a b : Nat) : Nat := (a * b) % U64

def u64div (a b : Nat) : Nat := (a / b) % U64

def u64mod (a b : Nat) : Nat := (a % b) % U64

def u64shl (a b : Nat) : Nat := (a <<< b) % U64

def u64shr (a b : Nat) : Nat := (a % U64) >>> b

def u64and (a b : Nat) : Nat := (a &&& b) % U64

def u64or (a b : Nat) : Nat := (a ||| b) % U64

def u64not (a : Nat) : Nat := U64 - 1 - a % U64

/-- Signed arithmetic shift right on the two complement reading of a u64,
as in the IR_SAR fold, which casts to i64 before shifting. -/
def u64sar (a b : Nat) : Nat :=
  let x : Int := if a % U64 < 2 ^ 63 then (a % U64 : Int) else (a % U64 : Int) - (U64 : Int)
  (Int.fdiv x (2 ^ b) % (U64 : Int)).toNat

def power_of_two (v : Nat) : Bool := 0 < v && v &&& (v - 1) = 0

def ctzllGo : Nat → Nat → Nat
  | 0, _ => 0
  | f + 1, v => if v % 2 = 0 then 1 + ctzllGo f (v / 2) else 0

/-- Count of trailing zero bits, 64 for zero, as __builtin_ctzll is used. -/
def ctzll (v : Nat) : Nat := if v = 0 then 64 else ctzllGo 64 v

/-! ### has_side_effects and opt_instcombine -/

/-- has_side_effects from opt.c.  The listed kinds and all binary
instructions are free of side effects; a call has side effects iff it is
indirect, or its callee is not pure, or it is a tail call; every other
kind (stores, branches, returns, unreachable, copies, ...) falls into the
default case and has side effects. -/
def has_side_effects (s : IRFunctionState) (ins : IRInstr) : Bool :=
  match ins.kind with
  | .IMMEDIATE | .LOAD | .PARAMETER | .NOT | .STATIC_REF | .FUNC_REF
  | .LIT_INTEGER | .LIT_STRING | .ALLOCA | .ZERO_EXTEND | .SIGN_EXTEND
  | .TRUNCATE | .BITCAST
  | .ADD | .SUB | .MUL | .DIV | .MOD | .SHL | .SHR | .SAR
  | .AND | .OR | .EQ | .NE | .LT | .LE | .GT | .GE => false
  | .CALL => ins.isIndirect || !(attrPureOf s ins.calleeFunction) || ins.tailCall
  | _ => true

def isImmediatePair (s : IRFunctionState) (ins : IRInstr) : Bool :=
  (getInst s ins.lhs).kind = IRKind.IMMEDIATE && (getInst s ins.rhs).kind = IRKind.IMMEDIATE

/-- Body of the IR_REDUCE_BINARY macro: remove the uses of both operands,
then overwrite the instruction in place with the folded immediate (the
operand fields and the imm field share a union in C, hence the ordering
contract). -/
def foldBinary (s : IRFunctionState) (i : Nat) (op : Nat → Nat → Nat) : IRFunctionState :=
  let ins := getInst s i
  let s1 := ir_remove_use s ins.lhs i
  let s2 := ir_remove_use s1 ins.rhs i
  let a := (getInst s2 ins.lhs).imm
  let b := (getInst s2 ins.rhs).imm
  mapInst s2 i (fun c => { c with kind := .IMMEDIATE, imm := op a b })

/-- One step of opt_instcombine on instruction i, returning the new state
and the contribution to the changed flag.  This mirrors the C switch case
by case; note that the C sets changed only in the immediate-pair folds,
the SAR fold, the strength reduction of a division by a power of two and
the NOT fold, and in no other case. -/
def instcombineInst (s : IRFunctionState) (i : Nat) : IRFunctionState × Bool :=
  let ins := getInst s i
  match ins.kind with
  | .ADD =>
    if isImmediatePair s ins then (foldBinary s i u64add, true)
    else if (getInst s ins.lhs).kind = IRKind.IMMEDIATE ∧ (getInst s ins.lhs).imm = 0 then
      -- adding zero: uses replaced with the rhs; the C neither removes the
      -- instruction nor sets changed here
      (ir_replace_uses (ir_remove_use (ir_remove_use s ins.lhs i) ins.rhs i) i ins.rhs, false)
    else if (getInst s ins.rhs).kind = IRKind.IMMEDIATE ∧ (getInst s ins.rhs).imm = 0 then
      (ir_replace_uses (ir_remove_use (ir_remove_use s ins.lhs i) ins.rhs i) i ins.lhs, false)
    else (s, false)
  | .SUB =>
    if isImmediatePair s ins then (foldBinary s i u64sub, true)
    else if (getInst s ins.rhs).kind = IRKind.IMMEDIATE ∧ (getInst s ins.rhs).imm = 0 then
      (ir_replace_uses (ir_remove_use (ir_remove_use s ins.lhs i) ins.rhs i) i ins.lhs, false)
    else (s, false)
  | .MUL =>
    if isImmediatePair s ins then (foldBinary s i u64mul, true)
    else if ((getInst s ins.lhs).kind = IRKind.IMMEDIATE ∧ (getInst s ins.lhs).imm = 0)
            ∨ ((getInst s ins.rhs).kind = IRKind.IMMEDIATE ∧ (getInst s ins.rhs).imm = 0) then
      -- multiplying by zero: rewrite in place to the immediate 0; the C
      -- does not set changed here
      let s1 := ir_remove_use (ir_remove_use s ins.lhs i) ins.rhs i
      (mapInst s1 i (fun c => { c with kind := .IMMEDIATE, imm := 0 }), false)
    else if (getInst s ins.lhs).kind = IRKind.IMMEDIATE ∧ (getInst s ins.lhs).imm = 1 then
      (ir_replace_uses (ir_remove_use (ir_remove_use s ins.lhs i) ins.rhs i) i ins.rhs, false)
    else if (getInst s ins.rhs).kind = IRKind.IMMEDIATE ∧ (getInst s ins.rhs).imm = 1 then
      (ir_replace_uses (ir_remove_use (ir_remove_use s ins.lhs i) ins.rhs i) i ins.lhs, false)
    else (s, false)
  | .DIV =>
    if isImmediatePair s ins then (foldBinary s i u64div, true)
    else if (getInst s ins.rhs).kind = IRKind.IMMEDIATE then
      if (getInst s ins.rhs).imm = 1 then
        -- division by one: the C calls ir_replace_uses(i, i->rhs), which
        -- replaces the uses of the division with the immediate one, not
        -- with the left operand; it neither removes the instruction nor
        -- sets changed
        (ir_replace_uses (ir_remove_use (ir_remove_use s ins.lhs i) ins.rhs i) i ins.rhs, false)
      else if power_of_two (getInst s ins.rhs).imm then
        let s1 := mapInst s i (fun c => { c with kind := .SAR })
        (mapInst s1 ins.rhs (fun d => { d with imm := ctzll d.imm }), true)
      else (s, false)
    else (s, false)
  | .MOD =>
    if isImmediatePair s ins then (foldBinary s i u64mod, true) else (s, false)
  | .SHL =>
    if isImmediatePair s ins then (foldBinary s i u64shl, true) else (s, false)
  | .SHR =>
    if isImmediatePair s ins then (foldBinary s i u64shr, true) else (s, false)
  | .SAR =>
    if isImmediatePair s ins then (foldBinary s i u64sar, true) else (s, false)
  | .AND =>
    if isImmediatePair s ins then (foldBinary s i u64and, true) else (s, false)
  | .OR =>
    if isImmediatePair s ins then (foldBinary s i u64or, true) else (s, false)
  | .NOT =>
    if (getInst s ins.operand).kind = IRKind.IMMEDIATE then
      let s1 := ir_remove_use s ins.operand i
      let v := (getInst s1 ins.operand).imm
      (mapInst s1 i (fun c => { c with kind := .IMMEDIATE, imm := u64not v }), true)
    else (s, false)
  | .BRANCH_CONDITIONAL =>
    if (getInst s ins.condId).kind = IRKind.IMMEDIATE then
      -- constant condition: convert in place to an unconditional branch;
      -- the C does not set changed here
      let s1 := mapInst s i (fun c => { c with kind := .BRANCH })
      let s2 := ir_remove_use s1 ins.condId i
      let dest := if (getInst s2 ins.condId).imm ≠ 0 then ins.thenBlock else ins.elseBlock
      (mapInst s2 i (fun c => { c with destBlock := dest }), false)
    else (s, false)
  | .PHI =>
    if ins.phiArgs.length > 1 then (s, false)
    else
      -- the C reads phi_args.data[0] here; a phi with zero incoming pairs
      -- would be an out-of-bounds read in C.  changed is not set.
      let v := (ins.phiArgs.head?.getD (0, 0)).2
      let s1 := ir_remove_use s v i
      let s2 := ir_replace_uses s1 i v
      (ir_remove s2 i, false)
  | .CALL =>
    if ins.isIndirect = false then (s, false)
    else
      let callee := getInst s ins.calleeInstr
      match callee.kind with
      | .FUNC_REF =>
        -- indirect call through a function reference becomes direct;
        -- changed is not set
        let s1 := mapInst s i
          (fun c => { c with isIndirect := false, calleeFunction := callee.funcRef })
        (ir_remove_use s1 ins.calleeInstr i, false)
      | .BITCAST =>
        if (getInst s callee.operand).kind = IRKind.FUNC_REF then
          let s1 := mapInst s i
            (fun c => { c with isIndirect := false,
                               calleeFunction := (getInst s callee.operand).funcRef })
          let s2 := ir_remove_use s1 callee.operand ins.calleeInstr
          (ir_remove_use s2 ins.calleeInstr i, false)
        else (s, false)
      | _ => (s, false)
  | _ => (s, false)

/-- opt_instcombine: one top-down sweep over every instruction of every
block, accumulating the changed flag. -/
def opt_instcombine (s : IRFunctionState) : IRFunctionState × Bool :=
  s.blocks.foldl
    (fun acc b =>
      (blockInstsOf acc.1 b).foldl
        (fun acc2 i =>
          let r := instcombineInst acc2.1 i
          (r.1, acc2.2 || r.2))
        acc)
    (s, false)

/-! ### opt_dce -/

/-- The DCE scan of one block: an instruction is removed when its use set
is empty and it has no side effects; the loop saves the next pointer
before removing, which the recursion on the tail models. -/
def dceBlock : IRFunctionState → Bool → List Nat → IRFunctionState × Bool
  | s, ch, [] => (s, ch)
  | s, ch, i :: rest =>
    if (getInst s i).users = [] ∧ has_side_effects s (getInst s i) = false then
      dceBlock (ir_remove s i) true rest
    else
      dceBlock s ch rest

def opt_dce (s : IRFunctionState) : IRFunctionState × Bool :=
  s.blocks.foldl (fun acc b => dceBlock acc.1 acc.2 (blockInstsOf acc.1 b)) (s, false)

def isTerminatorKind : IRKind → Bool
  | .BRANCH | .BRANCH_CONDITIONAL | .RETURN | .UNREACHABLE => true
  | _ => false

/-- Membership of an instruction in the blocks of the function. -/
def inBlocks (s : IRFunctionState) (i : Nat) : Bool :=
  s.blocks.any (fun b => (blockInstsOf s b).any (fun j => j = i))

/-- All instruction ids of the function in block order. -/
def instIds (s : IRFunctionState) : List Nat :=
  (s.blocks.map (fun b => blockInstsOf s b)).flatten

/-- The bidirectional def-use invariant of section 8 of the spec: every
operand of an instruction records that instruction among its users, and
every recorded user has the value among its operands. -/
def defUseOk (s : IRFunctionState) : Bool :=
  (instIds s).all
    (fun u => (operandsOf (getInst s u)).all (fun v => (getInst s v).users.contains u))
  && (instIds s).all
    (fun v => (getInst s v).users.all (fun u => (operandsOf (getInst s u)).contains v))

/-! ### Tail-call recognition -/

/-- The instruction sequence at which the admissibility walk enters block
b: when b is the block of the call itself the walk starts at the
instruction after the call, otherwise at the first instruction of b. -/
def tcStart (s : IRFunctionState) (call b : Nat) : List Nat :=
  if b = (getInst s call).parentBlock then
    ((blockInstsOf s b).dropWhile (fun j => j ≠ call)).drop 1
  else blockInstsOf s b

/-- The body of tail_call_possible_iter from opt.c, scanning the
instruction list of one block.  The enter argument performs the recursive
entry into a successor block.  The walk carries the growing vector of
admitted phis, which the C mutates in place and therefore shares between
the two arms of a conditional branch; the C return value is paired with
that vector.  The none result propagates exhaustion of the entry fuel. -/
def tcScan (s : IRFunctionState) (call : Nat)
    (enter : List Nat → Nat → Option (Bool × List Nat)) :
    List Nat → List Nat → Option (Bool × List Nat)
  | phis, [] => some (false, phis)
  | phis, i :: rest =>
    let ins := getInst s i
    if ins.kind = IRKind.PHI then
      if ins.phiArgs.any (fun a => a.2 = call || phis.contains a.2) then
        tcScan s call enter (phis ++ [i]) rest
      else some (false, phis)
    else if ins.kind = IRKind.RETURN then
      some (phis.contains ins.operand || ins.operand = call, phis)
    else if ins.kind = IRKind.BRANCH then enter phis ins.destBlock
    else if ins.kind = IRKind.BRANCH_CONDITIONAL then
      match enter phis ins.thenBlock with
      | none => none
      | some (b1, phis1) =>
        if b1 then enter phis1 ins.elseBlock
        else some (false, phis1)
    else some (false, phis)

/-- tail_call_possible_iter with an explicit fuel consumed each time the
walk follows a branch into a block.  The C recursion has no visited set,
so on a cycle of branches it recurses forever; the fuel makes that
observable as a none result for every fuel. -/
def tcRun (s : IRFunctionState) (call : Nat) :
    Nat → List Nat → Nat → Option (Bool × List Nat)
  | 0, _, _ => none
  | f + 1, phis, b => tcScan s call (tcRun s call f) phis (tcStart s call b)

/-- tail_call_possible from opt.c: run the walk from the parent block of
the call with an empty phi vector. -/
def tail_call_possible (s : IRFunctionState) (call : Nat) (fuel : Nat) :
    Option (Bool × List Nat) :=
  tcRun s call fuel [] (getInst s call).parentBlock

/-- opt_try_convert_to_tail_call: on admission mark the call as a tail
call and mark its block unreachable, returning true. -/
def opt_try_convert_to_tail_call (s : IRFunctionState) (fuel i : Nat) :
    IRFunctionState × Bool :=
  match tail_call_possible s i fuel with
  | some (true, _) =>
    let s1 := mapInst s i (fun c => { c with tailCall := true })
    (ir_mark_unreachable s1 (getInst s1 i).parentBlock, true)
  | _ => (s, false)

/-- The per-block loop of opt_tail_call_elim: at the first successful
conversion the C jumps to the next block. -/
def tceBlockGo (s : IRFunctionState) (fuel : Nat) : List Nat → IRFunctionState
  | [] => s
  | i :: rest =>
    if (getInst s i).kind = IRKind.CALL then
      let r := opt_try_convert_to_tail_call s fuel i
      if r.2 then r.1 else tceBlockGo r.1 fuel rest
    else tceBlockGo s fuel rest

/-- opt_tail_call_elim from opt.c.  The C declares a local changed flag
initialised to false and returns it, but no statement of the function
ever assigns to it, so the pass returns false even when it converts a
call. -/
def opt_tail_call_elim (s : IRFunctionState) (fuel : Nat) : IRFunctionState × Bool :=
  (s.blocks.foldl (fun acc b => tceBlockGo acc fuel (blockInstsOf acc b)) s, false)

/-! ### Mem2Reg -/

/-- The stack_var record of opt_mem2reg; store none models the C null
pointer. -/
structure StackVar where
  alloca : Nat
  store : Option Nat := none
  loads : List Nat := []
  unoptimisable : Bool := false
  deriving DecidableEq, Repr

/-- Update the first list entry satisfying p, as the C foreach loops with
break do. -/
def updateFirst (p : StackVar → Bool) (f : StackVar → StackVar) :
    List StackVar → List StackVar
  | [] => []
  | x :: xs => if p x then f x :: xs else x :: updateFirst p f xs

/-- The collection scan of opt_mem2reg over one instruction: allocas open
a new record, the first store to a tracked alloca is recorded and a second
one marks the variable unoptimisable, loads are recorded and a load before
the first store marks the variable unoptimisable (with a warning in the
C). -/
def m2rScanInst (vars : List StackVar) (i : Nat) (ins : IRInstr) : List StackVar :=
  match ins.kind with
  | .ALLOCA => vars ++ [{ alloca := i }]
  | .STORE =>
    updateFirst (fun a => !a.unoptimisable && a.alloca == ins.storeAddr)
      (fun a => if a.store.isSome then { a with unoptimisable := true }
                else { a with store := some i })
      vars
  | .LOAD =>
    updateFirst (fun a => !a.unoptimisable && a.alloca == ins.operand)
      (fun a => if a.store.isNone then { a with unoptimisable := true }
                else { a with loads := a.loads ++ [i] })
      vars
  | _ => vars

def m2rCollect (s : IRFunctionState) : List StackVar :=
  s.blocks.foldl
    (fun vars b => (blockInstsOf s b).foldl (fun vars i => m2rScanInst vars i (getInst s i)) vars)
    []

/-- The rewrite phase of opt_mem2reg for one collected variable: skip it
unless it has exactly one store and its only other users are the recorded
loads; otherwise replace every load by the stored value, drop the store
(clearing its use set first, as the C does) and drop the alloca. -/
def m2rApplyVar (s : IRFunctionState) (changed : Bool) (a : StackVar) :
    IRFunctionState × Bool :=
  match a.store with
  | none => (s, changed)
  | some st =>
    if a.unoptimisable ∨ (getInst s a.alloca).users.length ≠ a.loads.length + 1 then
      (s, changed)
    else
      let s1 := a.loads.foldl
        (fun s l => ir_remove (ir_replace_uses s l (getInst s st).storeValue) l) s
      let s2 := mapInst s1 st (fun c => { c with users := [] })
      let s3 := ir_remove s2 st
      (ir_remove s3 a.alloca, true)

def opt_mem2reg (s : IRFunctionState) : IRFunctionState × Bool :=
  (m2rCollect s).foldl (fun acc a => m2rApplyVar acc.1 acc.2 a) (s, false)

/-! ### Block reordering -/

/-- A node of the dominator tree: the block it covers and its children.
build_dominator_tree is not part of src/, so the tree is an input here;
the pass does not modify it or the data it was computed from. -/
inductive DomTreeNode where
  | node (blockId : Nat) (children : List DomTreeNode)

def DomTreeNode.blockId : DomTreeNode → Nat
  | .node b _ => b

def DomTreeNode.children : DomTreeNode → List DomTreeNode
  | .node _ cs => cs

mutual

def treeSize : DomTreeNode → Nat
  | .node _ cs => 1 + stackSize cs

def stackSize : List DomTreeNode → Nat
  | [] => 0
  | t :: ts => treeSize t + stackSize ts

end

/-- The preferred fallthrough successor of a block: the target of a final
unconditional branch, or the then target of a final conditional branch.
The C reads instructions.last of the block object; an empty block would be
a null dereference in C. -/
def nextTargetOf (s : IRFunctionState) (b : Nat) : Option Nat :=
  match (blockInstsOf s b).getLast? with
  | none => none
  | some lastI =>
    let ins := getInst s lastI
    if ins.kind = IRKind.BRANCH then some ins.destBlock
    else if ins.kind = IRKind.BRANCH_CONDITIONAL then some ins.thenBlock
    else none

/-- The child-pushing loop of opt_reorder_blocks: children other than the
preferred successor are pushed in order (so they pop in reverse), and the
preferred successor is pushed last so that it pops first.  The C also
consults a visited vector, but no statement of the pass ever adds to that
vector, so its contains checks are constantly false and are dropped here.
A child equal to the preferred target is remembered in nextNode,
overwriting any earlier match, exactly as the C loop does. -/
def pushChildren (next : Option Nat) :
    List DomTreeNode → Option DomTreeNode → List DomTreeNode → List DomTreeNode
  | [], none, stack => stack
  | [], some p, stack => p :: stack
  | c :: cs, nn, stack =>
    if next = some c.blockId then pushChildren next cs (some c) stack
    else pushChildren next cs nn (c :: stack)

/-- The preorder traversal loop of opt_reorder_blocks, collecting the new
linear block order.  nt gives the preferred successor of a block. -/
def reorderLoop (nt : Nat → Option Nat) : List DomTreeNode → List Nat
  | [] => []
  | n :: rest =>
    n.blockId :: reorderLoop nt (pushChildren (nt n.blockId) n.children none rest)
  termination_by stack => stackSize stack
  decreasing_by
    simp_wf
    have hpc : ∀ (nx : Option Nat) (cs : List DomTreeNode) (nn : Option DomTreeNode)
        (st : List DomTreeNode),
        stackSize (pushChildren nx cs nn st)
          ≤ stackSize cs + (nn.elim 0 treeSize) + stackSize st := by
      intro nx cs
      induction cs with
      | nil =>
        intro nn st
        cases nn <;> simp [pushChildren, stackSize, Option.elim]
      | cons c cs ih =>
        intro nn st
        by_cases h : nx = some c.blockId
        · have h1 := ih (some c) st
          simp [pushChildren, h, stackSize, Option.elim] at h1 ⊢
          cases nn <;> simp [Option.elim] <;> omega
        · have h1 := ih nn (c :: st)
          simp [pushChildren, h, stackSize, Option.elim] at h1 ⊢
          cases nn <;> simp [Option.elim] at h1 ⊢ <;> omega
    have hn : ∀ u : DomTreeNode, treeSize u = 1 + stackSize u.children := by
      intro u
      cases u with
      | node b cs => simp [treeSize, DomTreeNode.children]
    have h2 := hpc (nt t.blockId) t.children none ts
    simp [Option.elim] at h2
    have h3 := hn t
    simp [stackSize]
    omega

/-- opt_reorder_blocks: clear the block order and relink the blocks in
traversal order of the dominator tree.  Block contents are untouched. -/
def opt_reorder_blocks (s : IRFunctionState) (tree : DomTreeNode) : IRFunctionState :=
  { s with blocks := reorderLoop (nextTargetOf s) [tree] }

/-! ### IR to MIR lowering (lib/lcc/ir/module.cc, the C++ lcc IR)

The opcode-mapping loop of Module::mir emits, per IR instruction of a
block, machine instructions into the machine block.  The virtual-register
map computed by the first sub-pass is a parameter here. -/

/-- The Value::Kind enum of the C++ lcc IR. -/
inductive LKind where
  | Function | Block | IntegerConstant | ArrayConstant | Poison | GlobalVariable | Parameter
  | Copy | Alloca | Call | GetElementPtr | Intrinsic | Load | Phi | Store
  | Branch | CondBranch | Return | Unreachable
  | ZExt | SExt | Trunc | Bitcast | Neg | Compl
  | Add | Sub | Mul | SDiv | UDiv | SRem | URem | Shl | Sar | Shr | And | Or | Xor
  | Eq | Ne | SLt | SLe | SGt | SGe | ULt | ULe | UGt | UGe
  deriving DecidableEq, Repr

/-- The MInst::Kind opcodes produced by the lowering. -/
inductive MKind where
  | Alloca | Load | Store | Return
  | ZExt | SExt | Trunc | Bitcast | Neg | Compl
  | Add | Sub | Mul | SDiv | UDiv | SRem | URem | Shl | Sar | Shr | And | Or | Xor
  | Eq | Ne | SLt | SLe | SGt | SGe | ULt | ULe | UGt | UGe
  deriving DecidableEq, Repr

inductive MOperand where
  | Register (id : Nat)
  | Immediate (value : Nat)
  deriving DecidableEq, Repr

structure MInst where
  kind : MKind
  operands : List MOperand
  deriving DecidableEq, Repr

/-- One C++ IR instruction, with the fields the emission loop reads: the
pointer of a load, the pointer and value of a store, the operand of a
unary instruction, the two operands of a binary instruction, the optional
return value, and the bit width of the allocated type of an alloca.
Fields are instruction ids into the virtual-register map. -/
structure LInst where
  kind : LKind
  ptr : Nat := 0
  val : Nat := 0
  opnd : Nat := 0
  lhs : Nat := 0
  rhs : Nat := 0
  hasValue : Bool := false
  typeBits : Nat := 0
  deriving DecidableEq, Repr

/-- ir_nary_inst_kind_to_mir: the unary and binary opcode table; every
other kind hits LCC_UNREACHABLE in the C++, modelled as none. -/
def ir_nary_inst_kind_to_mir : LKind → Option MKind
  | .ZExt => some .ZExt
  | .SExt => some .SExt
  | .Trunc => some .Trunc
  | .Bitcast => some .Bitcast
  | .Neg => some .Neg
  | .Compl => some .Compl
  | .Add => some .Add
  | .Sub => some .Sub
  | .Mul => some .Mul
  | .SDiv => some .SDiv
  | .UDiv => some .UDiv
  | .SRem => some .SRem
  | .URem => some .URem
  | .Shl => some .Shl
  | .Sar => some .Sar
  | .Shr => some .Shr
  | .And => some .And
  | .Or => some .Or
  | .Xor => some .Xor
  | .Eq => some .Eq
  | .Ne => some .Ne
  | .SLt => some .SLt
  | .SLe => some .SLe
  | .SGt => some .SGt
  | .SGe => some .SGe
  | .ULt => some .ULt
  | .ULe => some .ULe
  | .UGt => some .UGt
  | .UGe => some .UGe
  | _ => none

/-- The machine instructions that the emission loop of Module::mir appends
to the machine block for one IR instruction.  none models the aborting
paths (LCC_UNREACHABLE for non-instruction kinds, LCC_TODO for call, GEP,
intrinsic, phi, branches and unreachable).  In the Load case the C++
constructs the MInst and adds its register operand but never calls
bb.add_instruction on it, so nothing reaches the block. -/
def lowerInst (virts : Nat → Nat) (ins : LInst) : Option (List MInst) :=
  match ins.kind with
  | .Function | .Block | .IntegerConstant | .ArrayConstant | .Poison
  | .GlobalVariable | .Parameter => none
  | .Copy => some []
  | .Alloca => some [⟨.Alloca, [.Immediate ins.typeBits]⟩]
  | .Call | .GetElementPtr | .Intrinsic | .Phi | .Branch | .CondBranch
  | .Unreachable => none
  | .Store => some [⟨.Store, [.Register (virts ins.ptr), .Register (virts ins.val)]⟩]
  | .Load => some []
  | .Return => some [⟨.Return, if ins.hasValue then [.Register (virts ins.val)] else []⟩]
  | .ZExt | .SExt | .Trunc | .Bitcast | .Neg | .Compl =>
    (ir_nary_inst_kind_to_mir ins.kind).map
      (fun k => [⟨k, [.Register (virts ins.opnd)]⟩])
  | _ =>
    (ir_nary_inst_kind_to_mir ins.kind).map
      (fun k => [⟨k, [.Register (virts ins.lhs), .Register (virts ins.rhs)]⟩])

/-- Lower one IR block to a machine block by appending the emission of
each instruction in order. -/
def lowerBlock (virts : Nat → Nat) : List LInst → Option (List MInst)
  | [] => some []
  | ins :: rest =>
    match lowerInst virts ins with
    | none => none
    | some ms =>
      match lowerBlock virts rest with
      | none => none
      | some tail => some (ms ++ tail)

/-! ### Driver exit codes (src/lcc.cc) -/

inductive InputKind where
  | int
  | laye
  | c
  | unknown
  deriving DecidableEq, Repr

structure DriverFlags where
  syntaxOnly : Bool
  printAst : Bool
  deriving DecidableEq, Repr

/-- The process exit code of main in src/lcc.cc as a function of the
input-file extension, the flags, and whether an error diagnostic exists
after parsing respectively after semantic analysis.  The .int path exits 0
or 1 under --syntax-only, exits 1 when --ast is given and an error exists,
and otherwise returns 42 after IR generation; the .laye path returns 69;
the .c path returns 89; an unrecognised extension reaches Diag::Fatal,
which terminates with a non-zero code (modelled from the spec as 1, the
exact non-zero value being outside src/). -/
def driverExitCode (ext : InputKind) (fl : DriverFlags)
    (hasErrorAfterParse hasErrorAfterSema : Bool) : Nat :=
  match ext with
  | .int =>
    if fl.syntaxOnly then
      if hasErrorAfterParse then 1 else 0
    else if fl.printAst && hasErrorAfterSema then 1
    else 42
  | .laye => 69
  | .c => 89
  | .unknown => 1

/-! ### Concrete functions used by the claim theorems -/

/-- A function return div(x, 1) for a non-immediate x:
id 30 a parameter, id 31 the immediate 1, id 32 = div 30 31,
id 33 = return 32. -/
def divByOneEx : IRFunctionState :=
  { blocks := [1]
    blockInsts := [(1, [30, 31, 32, 33])]
    env :=
      [ (30, { kind := .PARAMETER, parentBlock := 1, users := [32] })
      , (31, { kind := .IMMEDIATE, imm := 1, parentBlock := 1, users := [32] })
      , (32, { kind := .DIV, lhs := 30, rhs := 31, parentBlock := 1, users := [33] })
      , (33, { kind := .RETURN, operand := 32, parentBlock := 1 }) ] }

/-- A function return div(imm 1, imm 0):
id 40 the immediate 1, id 41 the immediate 0, id 42 = div 40 41,
id 43 = return 42. -/
def divByZeroEx : IRFunctionState :=
  { blocks := [1]
    blockInsts := [(1, [40, 41, 42, 43])]
    env :=
      [ (40, { kind := .IMMEDIATE, imm := 1, parentBlock := 1, users := [42] })
      , (41, { kind := .IMMEDIATE, imm := 0, parentBlock := 1, users := [42] })
      , (42, { kind := .DIV, lhs := 40, rhs := 41, parentBlock := 1, users := [43] })
      , (43, { kind := .RETURN, operand := 42, parentBlock := 1 }) ] }

/-- A function return add(imm 0, x) for a parameter x:
id 50 the immediate 0, id 51 a parameter, id 52 = add 50 51,
id 53 = return 52. -/
def addZeroEx : IRFunctionState :=
  { blocks := [1]
    blockInsts := [(1, [50, 51, 52, 53])]
    env :=
      [ (50, { kind := .IMMEDIATE, imm := 0, parentBlock := 1, users := [52] })
      , (51, { kind := .PARAMETER, parentBlock := 1, users := [52] })
      , (52, { kind := .ADD, lhs := 50, rhs := 51, parentBlock := 1, users := [53] })
      , (53, { kind := .RETURN, operand := 52, parentBlock := 1 }) ] }

/-- A function whose single block ends in return of a direct call:
id 20 = call of function 7, id 21 = return 20.  The callee is not pure. -/
def tailCallEx : IRFunctionState :=
  { blocks := [1]
    blockInsts := [(1, [20, 21])]
    env :=
      [ (20, { kind := .CALL, calleeFunction := 7, parentBlock := 1, users := [21] })
      , (21, { kind := .RETURN, operand := 20, parentBlock := 1 }) ]
    funcPure := [(7, false)] }

/-- A function with a call followed by a branch into a self-looping block:
block 1 holds id 20 = call of function 7 and id 21 = branch to block 2;
block 2 holds id 22 = branch to block 2.  This is the shape produced by a
call followed by an infinite loop. -/
def loopingEx : IRFunctionState :=
  { blocks := [1, 2]
    blockInsts := [(1, [20, 21]), (2, [22])]
    env :=
      [ (20, { kind := .CALL, calleeFunction := 7, parentBlock := 1 })
      , (21, { kind := .BRANCH, destBlock := 2, parentBlock := 1 })
      , (22, { kind := .BRANCH, destBlock := 2, parentBlock := 2 }) ]
    funcPure := [(7, false)] }

/-- The mem2reg shape of the spec, with the constant c as the immediate
id 10: a = alloca (id 11), store c into a (id 12), r = load a (id 13),
return r (id 14). -/
def mem2regEx (c : Nat) : IRFunctionState :=
  { blocks := [1]
    blockInsts := [(1, [10, 11, 12, 13, 14])]
    env :=
      [ (10, { kind := .IMMEDIATE, imm := c, parentBlock := 1, users := [12] })
      , (11, { kind := .ALLOCA, parentBlock := 1, users := [12, 13] })
      , (12, { kind := .STORE, storeAddr := 11, storeValue := 10, parentBlock := 1 })
      , (13, { kind := .LOAD, operand := 11, parentBlock := 1, users := [14] })
      , (14, { kind := .RETURN, operand := 13, parentBlock := 1 }) ] }

/-- The state that opt_mem2reg produces from mem2regEx c: only the
immediate and the return remain linked in the block; the payloads of the
removed instructions stay in the arena but are no longer referenced by
any block, and the use sets reflect the rewritten return. -/
def mem2regExpected (c : Nat) : IRFunctionState :=
  { blocks := [1]
    blockInsts := [(1, [10, 14])]
    env :=
      [ (10, { kind := .IMMEDIATE, imm := c, parentBlock := 1, users := [14] })
      , (11, { kind := .ALLOCA, parentBlock := 1 })
      , (12, { kind := .STORE, storeAddr := 11, storeValue := 10, parentBlock := 1 })
      , (13, { kind := .LOAD, operand := 11, parentBlock := 1 })
      , (14, { kind := .RETURN, operand := 10, parentBlock := 1 }) ] }

/-- Does any instruction of kind k remain in the blocks of s? -/
def containsKind (s : IRFunctionState) (k : IRKind) : Bool :=
  (instIds s).any (fun i => (getInst s i).kind = k)

/-- A block with a dead add (id 70, no users) and a void return (id 71),
used to witness the DCE characterisation. -/
def dceEx : IRFunctionState :=
  { blocks := [1]
    blockInsts := [(1, [70, 71])]
    env :=
      [ (70, { kind := .ADD, lhs := 0, rhs := 0, parentBlock := 1 })
      , (71, { kind := .RETURN, operand := 0, parentBlock := 1 }) ] }

/-- An IR block for the MIR lowering: an alloca of a 64-bit type (value
id 1), a load of its pointer (value id 2), and a return of the loaded
value. -/
def mirBlockEx : List LInst :=
  [ { kind := .Alloca, typeBits := 64 }
  , { kind := .Load, ptr := 1 }
  , { kind := .Return, hasValue := true, val := 2 } ]

/-! ## Theorems -/

/-- Claim C1: on the function returning div(x, 1) with x a parameter, the
claim says opt_instcombine replaces every use of the division with x
(id 30) and removes the division.  The pass instead leaves the return
using id 31, the immediate 1 (the C passes i->rhs, the divisor, to
ir_replace_uses), and leaves the division instruction in its block. -/
theorem C1_div_by_one_uses_divisor_and_keeps_instruction :
    (getInst (opt_instcombine divByOneEx).1 33).operand = 31
    ∧ (getInst (opt_instcombine divByOneEx).1 31).kind = IRKind.IMMEDIATE
    ∧ (getInst (opt_instcombine divByOneEx).1 31).imm = 1
    ∧ inBlocks (opt_instcombine divByOneEx).1 32 = true
    ∧ (getInst (opt_instcombine divByOneEx).1 32).kind = IRKind.DIV := by
  decide

/-- Claim C2: lowering the IR block [alloca i64, load, return] with
Module::mir yields a machine block holding only the alloca and the
return; the constructed MIR load is discarded because the C++ never adds
it to the block, contradicting the claim that a matching load appears. -/
theorem C2_mir_lowering_drops_load :
    lowerBlock (fun n => n) mirBlockEx
      = some [⟨.Alloca, [.Immediate 64]⟩, ⟨.Return, [.Register 2]⟩]
    ∧ ((lowerBlock (fun n => n) mirBlockEx).getD []).all
        (fun mi => mi.kind != MKind.Load) = true := by
  decide

/-- Claim C3: a run of the driver on an .int, .laye or .c file that emits
no diagnostic exits with 42, 69 and 89 respectively, not with 0 as the
claim states. -/
theorem C3_driver_returns_nonzero_on_success :
    driverExitCode .int ⟨false, false⟩ false false = 42
    ∧ driverExitCode .laye ⟨false, false⟩ false false = 69
    ∧ driverExitCode .c ⟨false, false⟩ false false = 89
    ∧ driverExitCode .int ⟨false, false⟩ false false ≠ 0 := by
  decide

/-- Claim C4: on the function returning div(imm 1, imm 0) the claim says
the division is left intact; opt_instcombine folds it anyway (the
immediate-pair fold has no non-zero guard; the C evaluates 1/0, which is
undefined behaviour) and reports a change. -/
theorem C4_div_by_zero_is_folded_not_left_intact :
    (getInst (opt_instcombine divByZeroEx).1 42).kind = IRKind.IMMEDIATE
    ∧ (opt_instcombine divByZeroEx).2 = true := by
  decide

/-- Claim C5: opt_tail_call_elim marks the call of the function
{c = call g; return c} as a tail call yet returns false, because its
changed flag is never assigned; and opt_instcombine performs the
add-zero identity rewrite on {r = add(imm 0, x); return r} (the return
operand moves from the add, id 52, to x, id 51) yet also reports false. -/
theorem C5_passes_underreport_changes :
    (opt_tail_call_elim tailCallEx 8).2 = false
    ∧ (getInst (opt_tail_call_elim tailCallEx 8).1 20).tailCall = true
    ∧ (getInst addZeroEx 53).operand = 52
    ∧ (getInst (opt_instcombine addZeroEx).1 53).operand = 51
    ∧ (opt_instcombine addZeroEx).2 = false := by
  decide

/-- Claim C6: the function returning add(imm 0, x) satisfies the
bidirectional def-use invariant, and after opt_instcombine it does not:
the add instruction stays in its block with operands 0 and x while both
use sets have been cleared of it. -/
theorem C6_def_use_invariant_broken_by_instcombine :
    defUseOk addZeroEx = true
    ∧ defUseOk (opt_instcombine addZeroEx).1 = false := by
  decide

set_option maxHeartbeats 2000000 in
/-- Claim C8: for every constant c, running opt_mem2reg on the function
{a = alloca; store c, a; r = load a; return r} leaves exactly the
immediate c and a return of it, with no alloca, store or load remaining,
and reports a change. -/
theorem C8_mem2reg_promotes_canonical_shape (c : Nat) :
    (opt_mem2reg (mem2regEx c)).1.blocks = [1]
    ∧ blockInstsOf (opt_mem2reg (mem2regEx c)).1 1 = [10, 14]
    ∧ (getInst (opt_mem2reg (mem2regEx c)).1 14).kind = IRKind.RETURN
    ∧ (getInst (opt_mem2reg (mem2regEx c)).1 14).operand = 10
    ∧ (getInst (opt_mem2reg (mem2regEx c)).1 10).kind = IRKind.IMMEDIATE
    ∧ (getInst (opt_mem2reg (mem2regEx c)).1 10).imm = c
    ∧ containsKind (opt_mem2reg (mem2regEx c)).1 IRKind.ALLOCA = false
    ∧ containsKind (opt_mem2reg (mem2regEx c)).1 IRKind.STORE = false
    ∧ containsKind (opt_mem2reg (mem2regEx c)).1 IRKind.LOAD = false
    ∧ (opt_mem2reg (mem2regEx c)).2 = true := by
  have h : opt_mem2reg (mem2regEx c) = (mem2regExpected c, true) := by
    simp [opt_mem2reg, mem2regEx, mem2regExpected, m2rCollect, m2rScanInst, m2rApplyVar,
          blockInstsOf, getInst, mapInst, ir_remove, ir_remove_use, ir_replace_uses,
          addUsers, operandsOf, updateFirst, replaceOperandIn, substOp,
          List.lookup, List.filter]
  rw [h]
  exact ⟨rfl, rfl, rfl, rfl, rfl, rfl, rfl, rfl, rfl, rfl⟩

/-- Claim C9: opt_reorder_blocks is idempotent: for any function state
and any dominator tree, running the pass twice yields the same state, and
in particular the same linear block sequence, as running it once.  The
traversal depends only on the dominator tree and on the block contents,
neither of which the pass modifies. -/
theorem C9_reorder_blocks_idempotent (s : IRFunctionState) (tree : DomTreeNode) :
    opt_reorder_blocks (opt_reorder_blocks s tree) tree = opt_reorder_blocks s tree :=
  rfl

/-- The admissibility walk re-enters the self-looping block 2 of
loopingEx on every unit of fuel and never completes. -/
theorem tcRun_looping_self_cycle : ∀ f, tcRun loopingEx 20 f [] 2 = none
  | 0 => rfl
  | f + 1 => tcRun_looping_self_cycle f

/-- Claim C10: tail_call_possible does not terminate on every call: on a
call followed by a branch into a block that branches to itself, the
recursive walk (which keeps no visited set) re-enters the loop block
forever, so the fuelled model returns none for every fuel. -/
theorem C10_tail_call_walk_diverges_on_branch_cycle :
    ∀ fuel, tail_call_possible loopingEx 20 fuel = none
  | 0 => rfl
  | f + 1 => tcRun_looping_self_cycle f

/-! ### Lemmas about removal, leading to the DCE characterisation -/

theorem lookup_keyed_map {β : Type} (i : Nat) (h : Nat → β → β) :
    ∀ l : List (Nat × β),
      (l.map (fun p => (p.1, h p.1 p.2))).lookup i = (l.lookup i).map (h i)
  | [] => rfl
  | (k, v) :: rest => by
    by_cases hk : i = k
    · subst hk
      simp [List.lookup]
    · have hne : (i == k) = false := by simp [hk]
      simp [List.lookup, hne, lookup_keyed_map i h rest]

theorem getInst_mapInst (s : IRFunctionState) (j : Nat) (f : IRInstr → IRInstr) (i : Nat) :
    getInst (mapInst s j f) i
      = if i = j then ((s.env.lookup i).map f).getD default else getInst s i := by
  unfold getInst mapInst
  rw [show (s.env.map (fun p => (p.1, if p.1 = j then f p.2 else p.2)))
        = s.env.map (fun p => (p.1, (fun k v => if k = j then f v else v) p.1 p.2)) from rfl]
  rw [lookup_keyed_map i (fun k v => if k = j then f v else v) s.env]
  by_cases hj : i = j
  · subst hj
    cases hl : s.env.lookup i <;> simp [hl]
  · cases hl : s.env.lookup i <;> simp [hl, hj]

theorem getInst_ir_remove_use_kind (s : IRFunctionState) (a u i : Nat) :
    (getInst (ir_remove_use s a u) i).kind = (getInst s i).kind := by
  unfold ir_remove_use
  rw [getInst_mapInst]
  by_cases h : i = a
  · subst h
    cases hl : s.env.lookup i <;> simp [hl, getInst]
  · simp [h]

theorem blockInsts_fold_remove_use (u : Nat) :
    ∀ (ops : List Nat) (s : IRFunctionState),
      (ops.foldl (fun s o => ir_remove_use s o u) s).blockInsts = s.blockInsts
  | [], _ => rfl
  | o :: ops, s => by
    rw [List.foldl_cons, blockInsts_fold_remove_use u ops]
    rfl

theorem blocks_fold_remove_use (u : Nat) :
    ∀ (ops : List Nat) (s : IRFunctionState),
      (ops.foldl (fun s o => ir_remove_use s o u) s).blocks = s.blocks
  | [], _ => rfl
  | o :: ops, s => by
    rw [List.foldl_cons, blocks_fold_remove_use u ops]
    rfl

theorem getInst_fold_remove_use_kind (u i : Nat) :
    ∀ (ops : List Nat) (s : IRFunctionState),
      (getInst (ops.foldl (fun s o => ir_remove_use s o u) s) i).kind = (getInst s i).kind
  | [], _ => rfl
  | o :: ops, s => by
    rw [List.foldl_cons, getInst_fold_remove_use_kind u i ops, getInst_ir_remove_use_kind]

theorem getInst_ir_remove_kind (s : IRFunctionState) (r i : Nat) :
    (getInst (ir_remove s r) i).kind = (getInst s i).kind := by
  simp only [ir_remove]
  exact getInst_fold_remove_use_kind r i (operandsOf (getInst s r)) s

theorem blocks_ir_remove (s : IRFunctionState) (r : Nat) :
    (ir_remove s r).blocks = s.blocks := by
  simp only [ir_remove]
  exact blocks_fold_remove_use r (operandsOf (getInst s r)) s

theorem blockInstsOf_ir_remove (s : IRFunctionState) (r b : Nat) :
    blockInstsOf (ir_remove s r) b = (blockInstsOf s b).filter (fun j => j ≠ r) := by
  have h1 : (ir_remove s r).blockInsts
      = s.blockInsts.map (fun p => (p.1, p.2.filter (fun j => j ≠ r))) := by
    simp only [ir_remove]
    rw [blockInsts_fold_remove_use]
  unfold blockInstsOf
  rw [h1]
  rw [show (s.blockInsts.map (fun p => (p.1, p.2.filter (fun j => j ≠ r))))
        = s.blockInsts.map
            (fun p => (p.1, (fun (_ : Nat) (l : List Nat) => l.filter (fun j => j ≠ r)) p.1 p.2))
      from rfl]
  rw [lookup_keyed_map b (fun (_ : Nat) (l : List Nat) => l.filter (fun j => j ≠ r)) s.blockInsts]
  cases hl : s.blockInsts.lookup b <;> simp [hl]

theorem any_filter_ne_self (r : Nat) :
    ∀ l : List Nat, ((l.filter (fun j => j ≠ r)).any (fun j => j = r)) = false
  | [] => rfl
  | x :: xs => by
    by_cases hx : x = r
    · subst hx
      have h1 : ((x :: xs).filter (fun j => j ≠ x)) = xs.filter (fun j => j ≠ x) := by
        simp only [List.filter_cons]
        simp
      rw [h1, any_filter_ne_self x xs]
    · have h1 : ((x :: xs).filter (fun j => j ≠ r)) = x :: xs.filter (fun j => j ≠ r) := by
        simp only [List.filter_cons]
        simp [hx]
      rw [h1, List.any_cons, any_filter_ne_self r xs]
      simp [hx]

theorem any_eq_filter_ne (i r : Nat) (h : i ≠ r) :
    ∀ l : List Nat,
      ((l.filter (fun j => j ≠ r)).any (fun j => j = i)) = l.any (fun j => j = i)
  | [] => rfl
  | x :: xs => by
    by_cases hx : x = r
    · subst hx
      have h1 : ((x :: xs).filter (fun j => j ≠ x)) = xs.filter (fun j => j ≠ x) := by
        simp only [List.filter_cons]
        simp
      have hxi : (decide (x = i)) = false := by
        simp only [decide_eq_false_iff_not]
        exact fun he => h he.symm
      rw [h1, any_eq_filter_ne i x h xs, List.any_cons, hxi]
      simp
    · have h1 : ((x :: xs).filter (fun j => j ≠ r)) = x :: xs.filter (fun j => j ≠ r) := by
        simp only [List.filter_cons]
        simp [hx]
      rw [h1, List.any_cons, List.any_cons, any_eq_filter_ne i r h xs]

theorem inBlocks_ir_remove_self (s : IRFunctionState) (r : Nat) :
    inBlocks (ir_remove s r) r = false := by
  unfold inBlocks
  rw [blocks_ir_remove]
  simp only [blockInstsOf_ir_remove, any_filter_ne_self]
  simp

theorem inBlocks_ir_remove_of_ne (s : IRFunctionState) (r i : Nat) (h : i ≠ r) :
    inBlocks (ir_remove s r) i = inBlocks s i := by
  unfold inBlocks
  rw [blocks_ir_remove]
  simp only [blockInstsOf_ir_remove, any_eq_filter_ne i r h]

theorem inBlocks_ir_remove_mono (s : IRFunctionState) (r i : Nat) :
    inBlocks (ir_remove s r) i = true → inBlocks s i = true := by
  by_cases h : i = r
  · subst h
    rw [inBlocks_ir_remove_self]
    intro hF
    exact absurd hF (by simp)
  · rw [inBlocks_ir_remove_of_ne s r i h]
    exact id

theorem hse_of_terminator (s : IRFunctionState) (ins : IRInstr)
    (h : isTerminatorKind ins.kind = true) : has_side_effects s ins = true := by
  cases hk : ins.kind <;> simp [isTerminatorKind, hk] at h ⊢ <;>
    simp [has_side_effects, hk]

theorem dceBlock_kind (i : Nat) :
    ∀ (l : List Nat) (s : IRFunctionState) (ch : Bool),
      (getInst (dceBlock s ch l).1 i).kind = (getInst s i).kind
  | [], _, _ => rfl
  | j :: rest, s, ch => by
    simp only [dceBlock]
    by_cases hc : (getInst s j).users = [] ∧ has_side_effects s (getInst s j) = false
    · rw [if_pos hc, dceBlock_kind i rest, getInst_ir_remove_kind]
    · rw [if_neg hc, dceBlock_kind i rest]

theorem dceBlock_mono (i : Nat) :
    ∀ (l : List Nat) (s : IRFunctionState) (ch : Bool),
      inBlocks (dceBlock s ch l).1 i = true → inBlocks s i = true
  | [], _, _ => id
  | j :: rest, s, ch => by
    simp only [dceBlock]
    by_cases hc : (getInst s j).users = [] ∧ has_side_effects s (getInst s j) = false
    · rw [if_pos hc]
      intro h
      exact inBlocks_ir_remove_mono s j i (dceBlock_mono i rest _ _ h)
    · rw [if_neg hc]
      exact dceBlock_mono i rest s ch

theorem dceBlock_not_in (i : Nat) :
    ∀ (l : List Nat) (s : IRFunctionState) (ch : Bool),
      i ∉ l → inBlocks s i = true → inBlocks (dceBlock s ch l).1 i = true
  | [], _, _, _, hm => hm
  | j :: rest, s, ch, hnotin, hm => by
    have hji : i ≠ j := fun he => hnotin (he ▸ List.mem_cons_self j rest)
    have hrest : i ∉ rest := fun he => hnotin (List.mem_cons_of_mem j he)
    simp only [dceBlock]
    by_cases hc : (getInst s j).users = [] ∧ has_side_effects s (getInst s j) = false
    · rw [if_pos hc]
      exact dceBlock_not_in i rest _ _ hrest
        (by rw [inBlocks_ir_remove_of_ne s j i hji]; exact hm)
    · rw [if_neg hc]
      exact dceBlock_not_in i rest s ch hrest hm

theorem dceBlock_keeps_terminator (i : Nat) :
    ∀ (l : List Nat) (s : IRFunctionState) (ch : Bool),
      isTerminatorKind (getInst s i).kind = true → inBlocks s i = true →
      inBlocks (dceBlock s ch l).1 i = true
  | [], _, _, _, hm => hm
  | j :: rest, s, ch, hk, hm => by
    simp only [dceBlock]
    by_cases hji : j = i
    · subst hji
      have hse := hse_of_terminator s (getInst s j) hk
      have hc : ¬ ((getInst s j).users = [] ∧ has_side_effects s (getInst s j) = false) := by
        intro hc
        rw [hc.2] at hse
        cases hse
      rw [if_neg hc]
      exact dceBlock_keeps_terminator j rest s ch hk hm
    · by_cases hc : (getInst s j).users = [] ∧ has_side_effects s (getInst s j) = false
      · rw [if_pos hc]
        exact dceBlock_keeps_terminator i rest _ _
          (by rw [getInst_ir_remove_kind]; exact hk)
          (by rw [inBlocks_ir_remove_of_ne s j i (fun he => hji he.symm)]; exact hm)
      · rw [if_neg hc]
        exact dceBlock_keeps_terminator i rest s ch hk hm

theorem opt_dce_fold_keeps_terminator (i : Nat) :
    ∀ (bs : List Nat) (acc : IRFunctionState × Bool),
      isTerminatorKind (getInst acc.1 i).kind = true → inBlocks acc.1 i = true →
      inBlocks
        ((bs.foldl (fun acc b => dceBlock acc.1 acc.2 (blockInstsOf acc.1 b)) acc)).1 i = true
  | [], _, _, hm => hm
  | b :: bs, acc, hk, hm => by
    rw [List.foldl_cons]
    exact opt_dce_fold_keeps_terminator i bs _
      (by rw [dceBlock_kind]; exact hk)
      (dceBlock_keeps_terminator i (blockInstsOf acc.1 b) acc.1 acc.2 hk hm)

/-- Claim C7: the DCE characterisation.  First, a call is side-effect
free exactly when it is direct, its callee is pure and it is not a tail
call.  Second, when the scan of opt_dce reaches an instruction, it
removes it from the function exactly when its use set is empty and it has
no side effects.  Third, a terminator present in the function is still
present after opt_dce. -/
theorem C7_dce_removes_iff_dead_and_side_effect_free :
    (∀ (s : IRFunctionState) (c : IRInstr), c.kind = IRKind.CALL →
        (has_side_effects s c = false
          ↔ (c.isIndirect = false ∧ attrPureOf s c.calleeFunction = true ∧ c.tailCall = false)))
    ∧ (∀ (s : IRFunctionState) (ch : Bool) (i : Nat) (rest : List Nat),
        inBlocks s i = true → i ∉ rest →
        (inBlocks (dceBlock s ch (i :: rest)).1 i = false
          ↔ ((getInst s i).users = [] ∧ has_side_effects s (getInst s i) = false)))
    ∧ (∀ (s : IRFunctionState) (i : Nat),
        isTerminatorKind (getInst s i).kind = true → inBlocks s i = true →
        inBlocks (opt_dce s).1 i = true) := by
  refine ⟨?_, ?_, ?_⟩
  · intro s c hkind
    cases hI : c.isIndirect <;> cases hP : attrPureOf s c.calleeFunction
      <;> cases hT : c.tailCall <;> simp [has_side_effects, hkind, hI, hP, hT]
  · intro s ch i rest hin hnot
    simp only [dceBlock]
    by_cases hc : (getInst s i).users = [] ∧ has_side_effects s (getInst s i) = false
    · rw [if_pos hc]
      constructor
      · intro _
        exact hc
      · intro _
        cases hres : inBlocks (dceBlock (ir_remove s i) true rest).1 i with
        | false => rfl
        | true =>
          have h2 := dceBlock_mono i rest _ _ hres
          rw [inBlocks_ir_remove_self] at h2
          cases h2
    · rw [if_neg hc]
      have hkeep := dceBlock_not_in i rest s ch hnot hin
      constructor
      · intro hfalse
        rw [hkeep] at hfalse
        cases hfalse
      · intro hcond
        exact absurd hcond hc
  · intro s i hk hm
    exact opt_dce_fold_keeps_terminator i s.blocks (s, false) hk hm

/-- Witness for the DCE characterisation at the concrete block
[dead add 70, void return 71]: the dead add is removed, the return
terminator survives the pass, and the call criterion instantiates at a
direct non-tail call of the impure function 7. -/
theorem C7_dce_removes_iff_witness :
    inBlocks (dceBlock dceEx false [70, 71]).1 70 = false
    ∧ inBlocks (opt_dce dceEx).1 71 = true
    ∧ (has_side_effects dceEx { kind := .CALL, calleeFunction := 7 } = false
        ↔ (false = false ∧ attrPureOf dceEx 7 = true ∧ false = false)) := by
  refine ⟨?_, ?_, ?_⟩
  · exact (C7_dce_removes_iff_dead_and_side_effect_free.2.1 dceEx false 70 [71]
      (by decide) (by decide)).mpr (by decide)
  · exact C7_dce_removes_iff_dead_and_side_effect_free.2.2 dceEx 71 (by decide) (by decide)
  · exact C7_dce_removes_iff_dead_and_side_effect_free.1 dceEx
      { kind := .CALL, calleeFunction := 7 } rfl

end Intercept
